import Mathlib

/-!
Verification of the volvisdata market-data acquisition core
(`volvisdata/market_data.py` and `volvisdata/volatility.py`).

The Python module is shallowly embedded: each stage of the pipeline becomes a
pure Lean function over explicit inputs (the provider quote snapshot, the
per-expiry chain fetch results, the scraped page entries, the precomputed
table, the holiday rule lists).  Exceptions (`KeyError`, `IndexError`,
`ValueError`) thrown and caught by the Python control flow are modelled with
`Option` / `Except` values and explicit case analysis that mirrors each
`try`/`except` block.  Prices are modelled as rationals.
-/

/- ## Spot price resolver (`Data.get_option_data`, market_data.py lines 191-204)

`asset.info` is a string-keyed dictionary; each field access either yields a
price or raises `KeyError`.  We model the snapshot as a record of optional
rationals.  Note that in the source, `asset.info['previousClose']` inside the
20% deviation check (line 196-197) can itself raise `KeyError`, which is caught
by the handler at line 199 and falls through to `navPrice`. -/

/-- Provider quote snapshot: the five `asset.info` fields the resolver reads,
each independently possibly absent. -/
structure Snapshot where
  currentPrice : Option ℚ
  bid : Option ℚ
  ask : Option ℚ
  navPrice : Option ℚ
  previousClose : Option ℚ
deriving DecidableEq

/-- Fallback tail shared by the resolver (market_data.py lines 200-203):
try `navPrice`, then `previousClose`; a `KeyError` on the final
`previousClose` access is uncaught, i.e. fatal. -/
def navFallback (s : Snapshot) : Except Unit ℚ :=
  match s.navPrice with
  | some nv => .ok nv
  | none =>
    match s.previousClose with
    | some pc => .ok pc
    | none => .error ()

/-- Spot resolution exactly as in market_data.py lines 191-204.  The mid price
`(bid+ask)/2` is computed first (line 195); the deviation check (lines 196-198)
reads `previousClose`, and if that key is absent its `KeyError` is caught by
the handler at line 199, discarding the mid and falling through to
`navPrice` / `previousClose`.  When `previousClose` is present but equal to 0,
the division in the deviation check raises `ZeroDivisionError`, which no
handler catches (line 199 catches only `KeyError`): the run fails fatally,
modelled by the explicit zero test guarding the division. -/
def codeSpot (s : Snapshot) : Except Unit ℚ :=
  match s.currentPrice with
  | some cp => .ok cp
  | none =>
    match s.bid, s.ask with
    | some b, some a =>
      match s.previousClose with
      | some pc =>
        if pc = 0 then .error ()
        else if |(b + a) / 2 - pc| / pc > 1/5 then .ok pc
        else .ok ((b + a) / 2)
      | none => navFallback s
    | _, _ => navFallback s

/-- Spot resolution as worded by the claim (spec section 4.1): `currentPrice`
first; else, when bid and ask are both present, the mid `(bid+ask)/2` unless
the 20% deviation test against `previousClose` rejects it (in which case
`previousClose`); else `navPrice`; else `previousClose`.  When `previousClose`
is absent the rejection clause cannot trigger, so the mid is kept. -/
def claimSpot (s : Snapshot) : Option ℚ :=
  match s.currentPrice with
  | some cp => some cp
  | none =>
    match s.bid, s.ask with
    | some b, some a =>
      match s.previousClose with
      | some pc =>
        some (if |(b + a) / 2 - pc| / pc > 1/5 then pc else (b + a) / 2)
      | none => some ((b + a) / 2)
    | _, _ =>
      match s.navPrice with
      | some nv => some nv
      | none => s.previousClose

/-- Amended resolution order: the mid step requires bid, ask AND
`previousClose` all present; when all three are present but `previousClose`
is 0, the deviation check divides by zero and resolution fails fatally
(`none`); with bid/ask present but `previousClose` absent the mid is
discarded and resolution falls through to `navPrice`, then
`previousClose`. -/
def amendedSpot (s : Snapshot) : Option ℚ :=
  match s.currentPrice with
  | some cp => some cp
  | none =>
    match s.bid, s.ask, s.previousClose with
    | some b, some a, some pc =>
      if pc = 0 then none
      else some (if |(b + a) / 2 - pc| / pc > 1/5 then pc else (b + a) / 2)
    | _, _, _ =>
      match s.navPrice with
      | some nv => some nv
      | none => s.previousClose

/-- Coerce an optional result to the exception-style result. -/
def optToExcept : Option ℚ → Except Unit ℚ
  | some q => .ok q
  | none => .error ()

/- ## API chain fetcher (`Data.get_option_data`, market_data.py lines 206-278)

Per expiry, `chain.calls` / `chain.puts` either raise (modelled `Except.error`)
or yield a row set.  The code inspects `len(side)` and
`isinstance(side['strike'][0], (int, float, complex))`; a missing `strike`
column surfaces as `KeyError` at that access.  Rows are modelled by the one
field the control flow inspects (the strike cell, possibly absent); the other
payload columns travel untouched and do not affect control flow. -/

/-- A raw strike cell: a numeric value (int/float/complex) or a non-numeric
placeholder string. -/
inductive Val where
  | num (q : ℚ)
  | str (s : String)
deriving DecidableEq

/-- One provider chain row.  `strike = none` models a row set whose `strike`
column is missing (`KeyError` on access). -/
structure Row where
  strike : Option Val
deriving DecidableEq

/-- A canonical-table row produced by a fetcher: the strike cell, the stamped
`Option Type` value and the stamped parsed `Expiry` date (dates are modelled
as numeric codes). -/
structure CRow where
  strike : Option Val
  otype : String
  expiry : ℕ
deriving DecidableEq

/-- Stamp a row set with an `Option Type` value and the parsed expiry date. -/
def tagRows (rs : List Row) (t : String) (d : ℕ) : List CRow :=
  rs.map (fun r => ⟨r.strike, t, d⟩)

/-- Outcome of the source's side-validation gate
(`if len(side) > 0: if isinstance(side['strike'][0], ...)`):
`valid` appends, `silent` falls through with no exception (empty row set, or
non-numeric first strike), `exc` raises `KeyError` (missing strike column on a
non-empty row set). -/
inductive Check where
  | valid
  | silent
  | exc
deriving DecidableEq

/-- Whether a strike cell passes `isinstance(v, (int, float, complex))`. -/
def isNumericVal : Val → Bool
  | .num _ => true
  | .str _ => false

/-- The side-validation gate applied to a fetched row set. -/
def checkSide : List Row → Check
  | [] => .silent
  | r :: _ =>
    match r.strike with
    | none => .exc
    | some v => if isNumericVal v then .valid else .silent

/-- The outer `except (IndexError, KeyError, ValueError)` handler of the
per-expiry loop (market_data.py lines 246-265): attempt puts-only.  `dlen` is
the current length of `params['option_dict'][expiry]`; the assignment
`params['option_dict'][expiry][1] = puts` (line 256) raises `IndexError`
unless that list already has at least two elements, which sends control to the
handler at line 264 that records the expiry in `opt_except_list`. -/
def apiOuter (pE : String → Option ℕ) (e : String)
    (puts : Except Unit (List Row)) (dlen : ℕ) : List CRow × Bool :=
  match puts with
  | .error _ => ([], true)
  | .ok ps =>
    match checkSide ps with
    | .silent => ([], false)
    | .exc => ([], true)
    | .valid =>
      if 2 ≤ dlen then
        match pE e with
        | some d => (tagRows ps "put" d, false)
        | none => ([], true)
      else ([], true)

/-- The inner `except (IndexError, KeyError, ValueError)` handler
(market_data.py lines 238-244): calls-only fallback.  `pd.to_datetime(expiry)`
raising `ValueError` here propagates to the outer handler. -/
def apiCallsOnly (pE : String → Option ℕ) (e : String) (cs : List Row)
    (puts : Except Unit (List Row)) (dlen : ℕ) : List CRow × Bool :=
  match pE e with
  | some d => (tagRows cs "call" d, false)
  | none => apiOuter pE e puts dlen

/-- One iteration of the per-expiry loop of `Data.get_option_data`
(market_data.py lines 208-265).  Returns the rows appended to
`tables['full_data']` for this expiry and whether the expiry was appended to
`params['opt_except_list']`.  `pE` models `pd.to_datetime` (parsed date or
`ValueError`). -/
def apiProcessExpiry (pE : String → Option ℕ) (e : String)
    (calls puts : Except Unit (List Row)) : List CRow × Bool :=
  match calls with
  | .error _ => apiOuter pE e puts 0
  | .ok cs =>
    match checkSide cs with
    | .silent => ([], false)
    | .exc => apiOuter pE e puts 0
    | .valid =>
      match puts with
      | .error _ => apiCallsOnly pE e cs puts 1
      | .ok ps =>
        match checkSide ps with
        | .silent => ([], false)
        | .exc => apiCallsOnly pE e cs puts 1
        | .valid =>
          match pE e with
          | some d => (tagRows cs "call" d ++ tagRows ps "put" d, false)
          | none => apiOuter pE e puts 2

/-- The full API fetch (`Data.get_option_data`): resolve the spot (an uncaught
`KeyError` there aborts the run), then iterate the provider's expiry list,
accumulating appended rows and the failed-expiry list.  The column rename at
lines 267-276 does not change row content in this model (rows already carry
canonical field names). -/
def apiGetOptionData (pE : String → Option ℕ) (snap : Snapshot)
    (expiries : List String)
    (chain : String → Except Unit (List Row) × Except Unit (List Row)) :
    Except Unit (ℚ × List CRow × List String) :=
  match codeSpot snap with
  | .error _ => .error ()
  | .ok sp =>
    .ok (sp,
      (expiries.map
        (fun e => (apiProcessExpiry pE e (chain e).1 (chain e).2).1)).flatten,
      expiries.filter
        (fun e => (apiProcessExpiry pE e (chain e).1 (chain e).2).2))

/- ## Legacy scrape fetcher: table processing (`Data._process_options`,
market_data.py lines 451-517)

`params['option_dict'][input_date]` holds the positional list of tables that
`pd.read_html` produced for that page.  A table is modelled by its `Strike`
column: `none` when the column is missing (`KeyError` on `t['Strike']`),
otherwise the list of scraped strike cells rendered as strings (the check is
`str(t['Strike'][0]).isdigit()`).  The two `except` clauses here catch ONLY
`IndexError`; a `KeyError` (missing column, or `[0]` on an empty column) and a
`ValueError` from `pd.to_datetime` propagate out of the whole stage. -/

/-- One positional HTML table, reduced to its `Strike` column. -/
abbrev LTable : Type := Option (List String)

/-- A canonical-table row produced by the legacy fetcher. -/
structure LCRow where
  strike : String
  otype : String
  expiry : ℕ
deriving DecidableEq

/-- Stamp a legacy table's rows with an option type and parsed expiry date. -/
def tagL (strikes : List String) (t : String) (d : ℕ) : List LCRow :=
  strikes.map (fun s => ⟨s, t, d⟩)

/-- Python's `str.isdigit` on an ASCII cell: non-empty and all digits
(stated over the character list of the string). -/
def pyIsdigit (s : String) : Bool :=
  !s.data.isEmpty && s.data.all Char.isDigit

/-- Result of evaluating `str(t['Strike'][0]).isdigit()` on a table:
`exc` when the access raises `KeyError` (missing column, or empty column so
label `0` is absent) — uncaught in `_process_options`. -/
def strikeDigitCheck : LTable → Check
  | none => .exc
  | some [] => .exc
  | some (s :: _) => if pyIsdigit s then .valid else .silent

/-- One iteration of the `_process_options` loop (market_data.py lines
460-515) on the table list `ts` for date `d`.  `Except.error` models an
exception escaping the stage (uncaught `KeyError` / `ValueError`); an `ok`
result gives the rows appended to `full_data` and whether the date was
appended to `opt_except_list`. -/
def legacyProcessDate (pE : String → Option ℕ) (d : String)
    (ts : List LTable) : Except Unit (List LCRow × Bool) :=
  match ts.get? 0 with
  | none =>
    match ts.get? 1 with
    | none => .ok ([], true)
    | some t1 =>
      match strikeDigitCheck t1 with
      | .exc => .error ()
      | .silent => .ok ([], false)
      | .valid =>
        match pE d with
        | none => .error ()
        | some dd => .ok (tagL (t1.getD []) "put" dd, false)
  | some t0 =>
    match strikeDigitCheck t0 with
    | .exc => .error ()
    | .silent => .ok ([], false)
    | .valid =>
      match ts.get? 1 with
      | none =>
        match pE d with
        | none => .error ()
        | some dd => .ok (tagL (t0.getD []) "call" dd, false)
      | some t1 =>
        match strikeDigitCheck t1 with
        | .exc => .error ()
        | .silent => .ok ([], false)
        | .valid =>
          match pE d with
          | none => .error ()
          | some dd =>
            .ok (tagL (t0.getD []) "call" dd ++ tagL (t1.getD []) "put" dd,
              false)

/-- The `_process_options` loop over `params['date_list']`
(market_data.py lines 460-515): an escaped exception at any date aborts the
stage; otherwise rows accumulate into `full_data` and failed dates into
`opt_except_list`, in order. -/
def legacyProcessOptions (pE : String → Option ℕ)
    (odict : String → List LTable) :
    List String → Except Unit (List LCRow × List String)
  | [] => .ok ([], [])
  | d :: rest =>
    match legacyProcessDate pE d (odict d) with
    | .error _ => .error ()
    | .ok (r, f) =>
      match legacyProcessOptions pE odict rest with
      | .error _ => .error ()
      | .ok (rows, fl) => .ok (r ++ rows, if f then d :: fl else fl)

/- ## Legacy scrape fetcher: page fetch and read
(`Data._extract_web_data` lines 399-423, `Data._read_web_data` lines 426-448)

The `UrlOpener` transport is not under src/.  Modelled from the spec: the HTML
transport, given a URL, returns raw page text or signals a fetch fault; the
fault is modelled as surfacing inside the `try` block of
`_extract_web_data` (where the source catches `ValueError` around
`weburl.text`), i.e. `fetch : url → Option text` with `none` a fault. -/

/-- `Data._extract_web_data`: iterate `url_dict` in order; on success store
the page text under the date and sleep `wait`; on a fault print and sleep 5 —
the date is stored nowhere.  Returns `raw_web_data`, the list of URLs actually
fetched (in order, one attempt each), and the sleep durations applied. -/
def extractWebData (wait : ℕ) (fetch : String → Option String) :
    List (String × String) → List (String × String) × List String × List ℕ
  | [] => ([], [], [])
  | (d, u) :: rest =>
    match fetch u with
    | some t =>
      let acc := extractWebData wait fetch rest
      ((d, t) :: acc.1, u :: acc.2.1, wait :: acc.2.2)
    | none =>
      let acc := extractWebData wait fetch rest
      (acc.1, u :: acc.2.1, 5 :: acc.2.2)

/-- Dictionary lookup `raw_web_data[input_date]` (first match). -/
def lookupRaw (raw : List (String × String)) (d : String) : Option String :=
  match raw with
  | [] => none
  | (k, v) :: rest => if k = d then some v else lookupRaw rest d

/-- `Data._read_web_data`: iterate `url_dict` again; `pd.read_html` on the
stored text either yields the positional table list or raises `ValueError`
(recorded in `url_except_dict`).  The lookup `raw_web_data[input_date]` for a
date that was never stored raises `KeyError`, which the `except ValueError`
clause does NOT catch: the stage aborts.  `pt` models `pd.read_html`. -/
def readWebData (pt : String → Option (List LTable))
    (raw : List (String × String)) :
    List (String × String) →
    Except Unit (List (String × List LTable) × List (String × String))
  | [] => .ok ([], [])
  | (d, u) :: rest =>
    match lookupRaw raw d with
    | none => .error ()
    | some txt =>
      match pt txt with
      | none =>
        match readWebData pt raw rest with
        | .error _ => .error ()
        | .ok (od, ex) => .ok (od, (d, u) :: ex)
      | some tabs =>
        match readWebData pt raw rest with
        | .error _ => .error ()
        | .ok (od, ex) => .ok ((d, tabs) :: od, ex)

/- ## Legacy URL discovery (`Data._extracturls`, market_data.py lines 357-396)

The page yields a list of date-picker entries, each with a display text and a
`data-value` token.  `dateutil.parser.parse` is external; it is modelled as a
parameter `parseD : String → Option ℕ` (parsed date code or failure), and
`strftime('%Y-%m-%d')` as a formatting parameter `fmt`.  The two lists are
filtered independently and zipped positionally; `dict(zip(...))` keeps
insertion order of first key occurrence and overwrites the value on a
duplicate key. -/

/-- One `div[role=option]` entry scraped from the root options page. -/
structure PageEntry where
  text : String
  token : String
deriving DecidableEq

/-- Token filter at line 379: purely numeric and exactly 10 characters
(`len(num) == 10 and num.isdigit()`, stated over the character list). -/
def validToken (t : String) : Bool :=
  t.data.length == 10 && t.data.all Char.isDigit

/-- Python `dict` insertion: overwrite the value if the key exists, else
append the pair. -/
def dictUpdate (d : List (String × String)) (k v : String) :
    List (String × String) :=
  if d.any (fun p => p.1 == k) then
    d.map (fun p => if p.1 == k then (k, v) else p)
  else d ++ [(k, v)]

/-- Python's `dict(pairs)`: fold the pairs through `dictUpdate`. -/
def dictOfPairs (l : List (String × String)) : List (String × String) :=
  l.foldl (fun d p => dictUpdate d p.1 p.2) []

/-- `Data._extracturls` lines 364-382: the date→token dictionary `optodict`.
Dates that fail to parse are dropped (lines 364-370); tokens failing
`validToken` are dropped (line 379); the survivors are zipped positionally
and turned into a dict. -/
def extracturls (parseD : String → Option ℕ) (fmt : ℕ → String)
    (entries : List PageEntry) : List (String × String) :=
  let datesList := entries.filterMap (fun e => parseD e.text)
  let strDates := datesList.map fmt
  let optionPages := (entries.map PageEntry.token).filter validToken
  dictOfPairs (strDates.zip optionPages)

/-- `Data._extracturls` lines 385-394: `url_dict`, mapping each date to the
page URL built from its token. -/
def urlDictOf (ticker : String) (parseD : String → Option ℕ)
    (fmt : ℕ → String) (entries : List PageEntry) :
    List (String × String) :=
  (extracturls parseD fmt entries).map (fun p =>
    (p.1,
      "https://finance.yahoo.com/quote/" ++ ticker ++ "/options?date=" ++ p.2))

/- ## Precomputed data adapter (`Volatility.__init__` volatility.py lines
105-115, `Data.process_df_option_data` market_data.py lines 136-161) -/

/-- One row of the externally supplied precomputed table: the columns the
adapter reads (spot price and the two discount-rate variants); the remaining
projected columns travel untouched. -/
structure PreRow where
  spotPrice : ℚ
  smoothDiscountRate : ℚ
  directDiscountRate : ℚ
deriving DecidableEq

/-- The per-row discount-rate selection of volatility.py lines 108-111. -/
def selectDiscountRate (discountType : String) (r : PreRow) : ℚ :=
  if discountType = "smooth" then r.smoothDiscountRate
  else r.directDiscountRate

/-- A canonical row produced by the adapter: the source row plus the
populated `Discount Rate` column. -/
structure CPreRow where
  src : PreRow
  discountRate : ℚ
deriving DecidableEq

/-- Result of the path selection in `Volatility.__init__`. -/
inductive VolPath where
  | precomputed (spot : ℚ) (table : List CPreRow)
  | fetchPath
deriving DecidableEq

/-- Path selection and precomputed adapter of `Volatility.__init__` lines
106-115 with `Data.process_df_option_data`: when `precomputed_data` is
present, populate `Discount Rate` from the variant selected by
`discount_type`, read the spot from the first row (`.iloc[0]` raises on an
empty table), and project the canonical columns; otherwise take the fetch
path (`Data.create_option_data`).  The precomputed branch consults no
fetch collaborator. -/
def volatilityInit (pre : Option (List PreRow)) (discountType : String) :
    Except Unit VolPath :=
  match pre with
  | none => .ok .fetchPath
  | some df =>
    match df with
    | [] => .error ()
    | h :: _ =>
      .ok (.precomputed h.spotPrice
        (df.map (fun r => ⟨r, selectDiscountRate discountType r⟩)))

/- ## Trading calendar builder (`Data.trading_calendar`, market_data.py lines
560-588)

The holiday rules themselves live in pandas (out of scope; spec section 6):
each rule is modelled by the list of dates it yields over the horizon
[today, today+2500 days], dates as numeric codes.  The code keeps
`[rule for i, rule in enumerate(USFederalHolidayCalendar.rules) if i != 6 and
i != 7]`, unions in the single `GoodFriday` rule via the calendar factory,
and `AbstractHolidayCalendar.holidays` returns the evaluated dates sorted. -/

/-- The rule filter of line 562: drop the rules at indices 6 and 7. -/
def filterIdxNe67 : ℕ → List (List ℕ) → List (List ℕ)
  | _, [] => []
  | i, l :: ls =>
    if i = 6 ∨ i = 7 then filterIdxNe67 (i + 1) ls
    else l :: filterIdxNe67 (i + 1) ls

/-- The retained federal rules (`CustomTradingCalendar.rules`). -/
def keptFederalRules (federal : List (List ℕ)) : List (List ℕ) :=
  filterIdxNe67 0 federal

/-- `Data.trading_calendar`: evaluate the retained federal rules plus the
GoodFriday rule over the horizon and return the sorted holiday list
(`params['trade_holidays']`). -/
def tradingCalendar (federal : List (List ℕ)) (goodFriday : List ℕ) :
    List ℕ :=
  ((keptFederalRules federal).flatten ++ goodFriday).mergeSort
    (fun a b => decide (a ≤ b))

/- ## Shared concrete inputs for witnesses and counterexamples -/

/-- A concrete `pd.to_datetime` model used in concrete evaluations. -/
def pEx : String → Option ℕ := fun s =>
  if s = "2025-03-21" then some 20250321
  else if s = "2025-04-18" then some 20250418
  else if s = "2025-06-20" then some 20250620
  else none

/- ## Claim C1: spot resolution fallback order -/

/-- C1 counterexample: on the snapshot with bid 100, ask 102, navPrice 50 and
no currentPrice / previousClose, the claimed 4-step fallback yields the mid
101, but the code's deviation check reads the absent `previousClose`, raises
`KeyError`, and falls through to navPrice 50. -/
theorem spot_claim_counterexample :
    codeSpot ⟨none, some 100, some 102, some 50, none⟩ = .ok 50 ∧
    claimSpot ⟨none, some 100, some 102, some 50, none⟩ = some 101 ∧
    (50 : ℚ) ≠ 101 := by
  refine ⟨rfl, ?_, by norm_num⟩
  show some ((100 + 102) / 2) = some (101 : ℚ)
  norm_num

/-- C1 amended: resolution is deterministic and follows the fallback order
with the mid step additionally requiring `previousClose`: `currentPrice`;
else, when bid, ask AND `previousClose` are all present, fatal failure if
`previousClose` is 0 (uncaught division by zero in the deviation check) and
otherwise mid-or-previousClose by the 20% test; else (including bid/ask
present but `previousClose` absent) `navPrice`; else `previousClose`; else
fatal. -/
theorem spot_resolution_amended (s : Snapshot) :
    codeSpot s = optToExcept (amendedSpot s) := by
  obtain ⟨cp, b, a, nv, pc⟩ := s
  cases cp <;> cases b <;> cases a <;> cases nv <;> cases pc <;>
    first
      | rfl
      | (simp only [codeSpot, amendedSpot, navFallback, optToExcept]
         split_ifs <;> rfl)

/- ## Claim C6: fatal spot-resolution failure -/

/-- C6 counterexample: with bid and ask present but currentPrice, navPrice
and previousClose absent, the fetch run still fails fatally (the deviation
check's `KeyError` discards the mid and the remaining fallbacks are
exhausted), so the absent-bid/ask condition in the claim is not the only
fatal condition. -/
theorem spot_fatal_counterexample :
    apiGetOptionData pEx ⟨none, some 100, some 102, none, none⟩
      ["2025-03-21"] (fun _ => (.ok [], .ok [])) = .error () ∧
    (⟨none, some 100, some 102, none, none⟩ : Snapshot).bid = some 100 :=
  ⟨rfl, rfl⟩

/-- C6 amended: the fetch run fails (no canonical table produced) exactly
when `currentPrice` is absent and either bid and ask are both present with
`previousClose` equal to 0 (uncaught division by zero in the deviation
check), or `navPrice` and `previousClose` are both absent.  In particular
bid/ask presence alone never saves the run (the deviation check itself needs
`previousClose`), and this is the only error the modelled fetch run
surfaces. -/
theorem spot_fatal_iff (pE : String → Option ℕ) (snap : Snapshot)
    (expiries : List String)
    (chain : String → Except Unit (List Row) × Except Unit (List Row)) :
    apiGetOptionData pE snap expiries chain = .error () ↔
      snap.currentPrice = none ∧
        ((snap.bid ≠ none ∧ snap.ask ≠ none ∧
            snap.previousClose = some 0) ∨
          (snap.navPrice = none ∧ snap.previousClose = none)) := by
  have h : codeSpot snap = .error () ↔
      snap.currentPrice = none ∧
        ((snap.bid ≠ none ∧ snap.ask ≠ none ∧
            snap.previousClose = some 0) ∨
          (snap.navPrice = none ∧ snap.previousClose = none)) := by
    obtain ⟨cp, b, a, nv, pc⟩ := snap
    cases cp <;> cases b <;> cases a <;> cases nv <;> cases pc <;>
      simp [codeSpot, navFallback] <;> split_ifs <;> simp_all
  constructor
  · intro hrun
    rcases hcs : codeSpot snap with u | sp
    · obtain ⟨⟩ := u
      exact h.mp hcs
    · unfold apiGetOptionData at hrun
      rw [hcs] at hrun
      simp at hrun
  · intro hr
    have hcs := h.mpr hr
    unfold apiGetOptionData
    rw [hcs]

/- ## Claim C2: calls valid, puts fail -/

/-- Five valid call rows with numeric strikes. -/
def fiveCalls : List Row :=
  [⟨some (.num 5700)⟩, ⟨some (.num 5725)⟩, ⟨some (.num 5750)⟩,
   ⟨some (.num 5775)⟩, ⟨some (.num 5800)⟩]

/-- C2 counterexample: an expiry with 5 valid calls and 0 puts contributes
ZERO rows, not 5 — the empty put set falls through `if len(puts) > 0` without
raising, so the calls-only `except` fallback never runs and the calls are
silently dropped (the expiry is still not recorded as failed). -/
theorem calls_only_empty_puts_counterexample :
    apiProcessExpiry pEx "2025-03-21" (.ok fiveCalls) (.ok []) =
      ([], false) ∧
    (apiProcessExpiry pEx "2025-03-21" (.ok fiveCalls) (.ok [])).1.length
      ≠ 5 := by
  exact ⟨rfl, by decide⟩

/-- C2 amended: when the call side is valid and the expiry date parses, the
expiry is never added to the failed-expiry list, and: calls alone are stamped
and appended exactly when the put side raises (fetch error, or missing strike
column on a non-empty set); when the puts fetch succeeds but yields an empty
row set or a non-numeric first strike, nothing at all is appended for the
expiry (the validated calls are silently dropped). -/
theorem calls_valid_puts_fail_amended (pE : String → Option ℕ) (e : String)
    (cs : List Row) (puts : Except Unit (List Row)) (d : ℕ)
    (hc : checkSide cs = .valid) (hd : pE e = some d) :
    (apiProcessExpiry pE e (.ok cs) puts).2 = false ∧
    (apiProcessExpiry pE e (.ok cs) puts).1 =
      (match puts with
       | .error _ => tagRows cs "call" d
       | .ok ps =>
         match checkSide ps with
         | .exc => tagRows cs "call" d
         | .silent => []
         | .valid => tagRows cs "call" d ++ tagRows ps "put" d) := by
  cases puts with
  | error u => simp [apiProcessExpiry, hc, apiCallsOnly, hd]
  | ok ps =>
    cases hps : checkSide ps <;>
      simp [apiProcessExpiry, hc, hps, apiCallsOnly, hd]

/-- C2 amended witness: concrete run with valid calls and a raising put
fetch — the expiry is not marked failed. -/
theorem calls_valid_puts_fail_amended_witness :
    (apiProcessExpiry pEx "2025-06-20" (.ok fiveCalls) (.error ())).2
      = false :=
  (calls_valid_puts_fail_amended pEx "2025-06-20" fiveCalls (.error ())
    20250620 (by decide) (by decide)).1

/- ## Claim C3: calls fail, puts valid (puts-only fallback) -/

/-- C3: the puts-only fallback is dead code.  When the call side raises and
the put side is perfectly valid, `params['option_dict'][expiry]` is still the
empty list, so `params['option_dict'][expiry][1] = puts` (line 256) raises
`IndexError`; the handler then records the expiry as failed and appends
nothing — contrary to the claim that valid puts are appended and the expiry
is recorded only if puts also fail. -/
theorem puts_only_branch_dead :
    apiProcessExpiry pEx "2025-03-21" (.error ())
      (.ok [⟨some (.num 5700)⟩]) = ([], true) := rfl

/- ## Claim C4: both sides fail -/

/-- C4 counterexample: calls come back as an empty row set (a validation
failure by the claim's own taxonomy) and puts raise; the run records NOTHING
in the failed-expiry list — the empty calls fall through `if len(calls) > 0`
silently and the puts are never even examined.  The claim's "exactly once in
the failed-expiry list" fails. -/
theorem both_fail_silent_counterexample :
    apiGetOptionData pEx ⟨some 5800, none, none, none, none⟩
      ["2025-03-21"] (fun _ => (.ok [], .error ())) =
      .ok (5800, [], []) := rfl

/-- Helper: every date in the failed list produced by the legacy loop comes
from the processed date list. -/
theorem legacy_fl_subset (pE : String → Option ℕ)
    (odict : String → List LTable) :
    ∀ (dates : List String) (rows : List LCRow) (fl : List String),
      legacyProcessOptions pE odict dates = .ok (rows, fl) →
      ∀ x ∈ fl, x ∈ dates := by
  intro dates
  induction dates with
  | nil =>
    intro rows fl h x hx
    simp only [legacyProcessOptions, Except.ok.injEq, Prod.mk.injEq] at h
    obtain ⟨-, h2⟩ := h
    subst h2
    cases hx
  | cons d rest ih =>
    intro rows fl h x hx
    unfold legacyProcessOptions at h
    rcases hstep : legacyProcessDate pE d (odict d) with u | p
    · rw [hstep] at h; simp at h
    · rw [hstep] at h
      rcases hrec : legacyProcessOptions pE odict rest with u | q
      · rw [hrec] at h; simp at h
      · rw [hrec] at h
        simp only [Except.ok.injEq, Prod.mk.injEq] at h
        obtain ⟨-, hfl⟩ := h
        rcases hf : p.2 with _ | _
        · rw [hf] at hfl
          simp at hfl
          exact List.mem_cons.mpr
            (Or.inr (ih q.1 q.2 (by rw [hrec]) x (hfl ▸ hx)))
        · rw [hf] at hfl
          rw [← hfl] at hx
          simp only [if_pos rfl] at hx
          rcases List.mem_cons.mp hx with h1 | h2
          · exact List.mem_cons.mpr (Or.inl h1)
          · exact List.mem_cons.mpr
              (Or.inr (ih q.1 q.2 (by rw [hrec]) x h2))

/-- Helper: count of a both-sides-raising date in the legacy failed list. -/
theorem legacy_fl_count (pE : String → Option ℕ)
    (odict : String → List LTable) :
    ∀ (dates : List String) (rows : List LCRow) (fl : List String)
      (d : String), dates.Nodup → d ∈ dates → odict d = [] →
      legacyProcessOptions pE odict dates = .ok (rows, fl) →
      fl.count d = 1 := by
  intro dates
  induction dates with
  | nil => intro _ _ _ hnd hmem; simp at hmem
  | cons d' rest ih =>
    intro rows fl d hnd hmem hod h
    unfold legacyProcessOptions at h
    rcases hstep : legacyProcessDate pE d' (odict d') with u | p
    · rw [hstep] at h; simp at h
    · rw [hstep] at h
      rcases hrec : legacyProcessOptions pE odict rest with u | q
      · rw [hrec] at h; simp at h
      · rw [hrec] at h
        simp only [Except.ok.injEq, Prod.mk.injEq] at h
        obtain ⟨-, hfl⟩ := h
        rcases List.mem_cons.mp hmem with heq | hmemr
        · -- d is the head date: its step is ([], true), so it heads fl
          subst heq
          rw [hod] at hstep
          have hpt : p = ([], true) := by
            have : legacyProcessDate pE d [] = .ok ([], true) := rfl
            rw [this] at hstep
            exact (Except.ok.injEq _ _).mp hstep.symm |>.symm ▸ rfl
          have hdnotin : d ∉ rest := (List.nodup_cons.mp hnd).1
          have hq : q.2.count d = 0 := by
            rw [List.count_eq_zero]
            intro hcon
            exact hdnotin
              (legacy_fl_subset pE odict rest q.1 q.2 (by rw [hrec]) d hcon)
          rw [hpt] at hfl
          simp only at hfl
          rw [← hfl]
          simp [List.count_cons, hq]
        · -- d occurs further down; the head date differs from d
          have hne : d ≠ d' := by
            rintro rfl
            exact (List.nodup_cons.mp hnd).1 hmemr
          have hcnt : q.2.count d = 1 :=
            ih q.1 q.2 d (List.nodup_cons.mp hnd).2 hmemr hod (by rw [hrec])
          rcases hf : p.2 with _ | _ <;> rw [hf] at hfl <;> rw [← hfl]
          · simpa using hcnt
          · simp [List.count_cons, hcnt, hne]

/-- A chain side that fails by raising: either the fetch itself raises
(`chain.calls` / `chain.puts`, caught by the surrounding handler), or the
fetched row set is non-empty with a missing strike column, so the
`side['strike'][0]` access raises `KeyError`. -/
def sideRaises (x : Except Unit (List Row)) : Prop :=
  x = .error () ∨ ∃ rs, x = .ok rs ∧ checkSide rs = .exc

/-- Helper: a raising put side makes the outer handler record the expiry and
append nothing. -/
theorem apiOuter_raise (pE : String → Option ℕ) (e : String)
    (puts : Except Unit (List Row)) (dlen : ℕ) (hp : sideRaises puts) :
    apiOuter pE e puts dlen = ([], true) := by
  rcases hp with rfl | ⟨ps, rfl, hps⟩
  · rfl
  · unfold apiOuter
    simp only [hps]

/-- Helper: an expiry both of whose sides raise yields no rows and is marked
failed. -/
theorem apiProcessExpiry_both_raise (pE : String → Option ℕ) (e : String)
    (calls puts : Except Unit (List Row)) (hc : sideRaises calls)
    (hp : sideRaises puts) :
    apiProcessExpiry pE e calls puts = ([], true) := by
  rcases hc with rfl | ⟨cs, rfl, hcs⟩
  · exact apiOuter_raise pE e puts 0 hp
  · unfold apiProcessExpiry
    simp only [hcs]
    exact apiOuter_raise pE e puts 0 hp

/-- C4 amended: an expiry BOTH of whose sides fail by raising an exception —
the fetch raising, or a non-empty row set with the strike column missing so
the `strike[0]` access raises `KeyError` — is recorded exactly once in the
failed-expiry list and contributes no rows, in both fetchers (for the legacy
fetcher, both sides raising `IndexError` means the page parsed to zero
positional tables).  A side that fails validation silently (a successfully
fetched but empty or non-numeric-strike row set) is instead dropped without
any failed-list record — see the counterexample. -/
theorem both_fail_raise_amended :
    (∀ (pE : String → Option ℕ) (snap : Snapshot) (expiries : List String)
      (chain : String → Except Unit (List Row) × Except Unit (List Row))
      (e : String) (sp : ℚ) (rows : List CRow) (fl : List String),
      expiries.Nodup → e ∈ expiries →
      sideRaises (chain e).1 → sideRaises (chain e).2 →
      apiGetOptionData pE snap expiries chain = .ok (sp, rows, fl) →
      fl.count e = 1 ∧
        (apiProcessExpiry pE e (chain e).1 (chain e).2).1 = []) ∧
    (∀ (pE : String → Option ℕ) (odict : String → List LTable)
      (dates : List String) (d : String) (rows : List LCRow)
      (fl : List String),
      dates.Nodup → d ∈ dates → odict d = [] →
      legacyProcessOptions pE odict dates = .ok (rows, fl) →
      fl.count d = 1 ∧ legacyProcessDate pE d [] = .ok ([], true)) := by
  constructor
  · intro pE snap expiries chain e sp rows fl hnd hmem hr1 hr2 hok
    have hrun := apiProcessExpiry_both_raise pE e (chain e).1 (chain e).2
      hr1 hr2
    have hfl : fl = expiries.filter
        (fun x => (apiProcessExpiry pE x (chain x).1 (chain x).2).2) := by
      unfold apiGetOptionData at hok
      rcases hcs : codeSpot snap with u | sv
      · rw [hcs] at hok; simp at hok
      · rw [hcs] at hok
        simp only [Except.ok.injEq, Prod.mk.injEq] at hok
        exact hok.2.2.symm
    have hp : (fun x =>
        (apiProcessExpiry pE x (chain x).1 (chain x).2).2) e = true := by
      show (apiProcessExpiry pE e (chain e).1 (chain e).2).2 = true
      rw [hrun]
    constructor
    · have hcf := @List.count_filter String _ _
        (fun x => (apiProcessExpiry pE x (chain x).1 (chain x).2).2)
        e expiries hp
      rw [hfl, hcf]
      exact List.count_eq_one_of_mem hnd hmem
    · rw [hrun]
  · intro pE odict dates d rows fl hnd hmem hod hok
    exact ⟨legacy_fl_count pE odict dates rows fl d hnd hmem hod hok, rfl⟩

/-- C4 amended witness: one expiry whose calls and puts fetch both raise,
one whose two sides both raise `KeyError` on a missing strike column, and
one date with zero parsed tables in the legacy path. -/
theorem both_fail_raise_amended_witness :
    (List.count "2025-04-18" ["2025-04-18"] = 1 ∧
      (apiProcessExpiry pEx "2025-04-18" (.error ()) (.error ())).1 = []) ∧
    (List.count "2025-06-20" ["2025-06-20"] = 1 ∧
      (apiProcessExpiry pEx "2025-06-20"
        (.ok [(⟨none⟩ : Row)]) (.ok [(⟨none⟩ : Row)])).1 = []) ∧
    (List.count "2025-03-21" ["2025-03-21"] = 1 ∧
      legacyProcessDate pEx "2025-03-21" [] = .ok ([], true)) := by
  refine ⟨?_, ?_, ?_⟩
  · exact both_fail_raise_amended.1 pEx ⟨some 5800, none, none, none, none⟩
      ["2025-04-18"] (fun _ => (.error (), .error ())) "2025-04-18"
      5800 [] ["2025-04-18"] (by simp) (by simp) (Or.inl rfl) (Or.inl rfl)
      rfl
  · exact both_fail_raise_amended.1 pEx ⟨some 5800, none, none, none, none⟩
      ["2025-06-20"]
      (fun _ => (.ok [(⟨none⟩ : Row)], .ok [(⟨none⟩ : Row)]))
      "2025-06-20" 5800 [] ["2025-06-20"] (by simp) (by simp)
      (Or.inr ⟨[⟨none⟩], rfl, rfl⟩) (Or.inr ⟨[⟨none⟩], rfl, rfl⟩) rfl
  · exact both_fail_raise_amended.2 pEx (fun _ => []) ["2025-03-21"]
      "2025-03-21" [] ["2025-03-21"] (by simp) (by simp) rfl rfl

/- ## Claim C5: network fault isolation in the legacy path -/

/-- Helper: every stored raw page comes from a URL of the dictionary whose
fetch succeeded with that text. -/
theorem extractWebData_raw_mem (wait : ℕ) (fetch : String → Option String) :
    ∀ (ud : List (String × String)) (d t : String),
      (d, t) ∈ (extractWebData wait fetch ud).1 →
      ∃ u, (d, u) ∈ ud ∧ fetch u = some t := by
  intro ud
  induction ud with
  | nil => intro d t h; cases h
  | cons p rest ih =>
    intro d t h
    obtain ⟨pd, pu⟩ := p
    unfold extractWebData at h
    rcases hf : fetch pu with _ | txt
    · rw [hf] at h
      obtain ⟨u, hu, hfu⟩ := ih d t h
      exact ⟨u, List.mem_cons.mpr (Or.inr hu), hfu⟩
    · rw [hf] at h
      rcases List.mem_cons.mp h with h1 | h2
      · injection h1 with h1d h1t
        subst h1d
        subst h1t
        exact ⟨pu, List.mem_cons.mpr (Or.inl rfl), hf⟩
      · obtain ⟨u, hu, hfu⟩ := ih d t h2
        exact ⟨u, List.mem_cons.mpr (Or.inr hu), hfu⟩

/-- Helper: a date stored nowhere in `raw_web_data` makes the lookup miss. -/
theorem lookupRaw_eq_none (d : String) :
    ∀ raw : List (String × String),
      (∀ t, (d, t) ∉ raw) → lookupRaw raw d = none := by
  intro raw
  induction raw with
  | nil => intro _; rfl
  | cons p rest ih =>
    intro h
    obtain ⟨k, v⟩ := p
    unfold lookupRaw
    rcases eq_or_ne k d with rfl | hne
    · exact absurd (List.mem_cons_self _ _) (h v)
    · rw [if_neg hne]
      exact ih (fun t ht => h t (List.mem_cons.mpr (Or.inr ht)))

/-- Helper: a missed lookup for any date of the dictionary aborts
`_read_web_data` (the `KeyError` is not caught by `except ValueError`). -/
theorem readWebData_error (pt : String → Option (List LTable))
    (raw : List (String × String)) :
    ∀ (ud : List (String × String)) (d u : String), (d, u) ∈ ud →
      lookupRaw raw d = none → readWebData pt raw ud = .error () := by
  intro ud
  induction ud with
  | nil => intro d u h; cases h
  | cons p rest ih =>
    intro d u hmem hlook
    obtain ⟨pd, pu⟩ := p
    unfold readWebData
    rcases List.mem_cons.mp hmem with h1 | h2
    · injection h1 with h1d h1u
      subst h1d
      rw [hlook]
    · rcases hl : lookupRaw raw pd with _ | txt
      · rfl
      · rcases hp : pt txt with _ | tabs <;>
          simp [hp, ih d u h2 hlook]

/-- Helper: with pairwise-distinct dates, a date determines its URL. -/
theorem nodup_keys_unique (ud : List (String × String)) (d u u' : String)
    (hnd : (ud.map Prod.fst).Nodup) (h1 : (d, u) ∈ ud)
    (h2 : (d, u') ∈ ud) : u = u' := by
  induction ud with
  | nil => cases h1
  | cons p rest ih =>
    obtain ⟨pd, pu⟩ := p
    simp only [List.map_cons, List.nodup_cons] at hnd
    rcases List.mem_cons.mp h1 with e1 | m1 <;>
      rcases List.mem_cons.mp h2 with e2 | m2
    · injection e1 with e1d e1u
      injection e2 with e2d e2u
      rw [e1u, e2u]
    · injection e1 with e1d e1u
      exfalso
      apply hnd.1
      rw [← e1d]
      exact List.mem_map.mpr ⟨(d, u'), m2, rfl⟩
    · injection e2 with e2d e2u
      exfalso
      apply hnd.1
      rw [← e2d]
      exact List.mem_map.mpr ⟨(d, u), m1, rfl⟩
    · exact ih hnd.2 m1 m2

/-- Concrete transport for the C5 counterexample: the first URL faults, the
second returns a page. -/
def fetchCex : String → Option String := fun u =>
  if u = "u2" then some "page2" else none

/-- Concrete URL dictionary for the C5 counterexample. -/
def udCex : List (String × String) :=
  [("2025-03-21", "u1"), ("2025-04-18", "u2")]

/-- C5 counterexample: with a fetch fault on the first URL, the second URL is
still fetched (5-unit backoff applied after the fault), but the faulted
expiry is NOT recorded in the URL-exception mapping: the read stage's lookup
of the missing date raises an uncaught `KeyError`, aborting before any
exception mapping (or any parse of the second page) is produced. -/
theorem web_fault_counterexample :
    extractWebData 1 fetchCex udCex =
      ([("2025-04-18", "page2")], ["u1", "u2"], [5, 1]) ∧
    readWebData (fun _ => some []) (extractWebData 1 fetchCex udCex).1 udCex
      = .error () := ⟨rfl, rfl⟩

/-- C5 amended: in the fetch stage a fault on one URL does not prevent later
URLs from being fetched — every URL of the dictionary is attempted exactly
once, in order, with the configured wait after a success and the fixed
5-unit backoff after a fault, and no URL is retried.  However the faulted
expiry is not recorded in the URL-exception mapping: with pairwise-distinct
dates, the subsequent read stage aborts with an uncaught lookup error on the
faulted date (that mapping only ever records parse failures of fetched
pages). -/
theorem web_fault_amended :
    (∀ (wait : ℕ) (fetch : String → Option String)
      (ud : List (String × String)),
      (extractWebData wait fetch ud).2.1 = ud.map Prod.snd ∧
      (extractWebData wait fetch ud).2.2 = ud.map (fun p =>
        match fetch p.2 with
        | some _ => wait
        | none => 5)) ∧
    (∀ (wait : ℕ) (fetch : String → Option String)
      (ud : List (String × String)) (d u : String)
      (pt : String → Option (List LTable)),
      (ud.map Prod.fst).Nodup → (d, u) ∈ ud → fetch u = none →
      readWebData pt (extractWebData wait fetch ud).1 ud = .error ()) := by
  constructor
  · intro wait fetch ud
    induction ud with
    | nil => exact ⟨rfl, rfl⟩
    | cons p rest ih =>
      obtain ⟨pd, pu⟩ := p
      unfold extractWebData
      rcases hf : fetch pu with _ | txt <;>
        simp [hf, ih.1, ih.2]
  · intro wait fetch ud d u pt hnd hmem hf
    apply readWebData_error pt _ ud d u hmem
    apply lookupRaw_eq_none
    intro t ht
    obtain ⟨u', hu', hfu'⟩ := extractWebData_raw_mem wait fetch ud d t ht
    rw [nodup_keys_unique ud d u u' hnd hmem hu'] at hf
    rw [hf] at hfu'
    cases hfu'

/-- Concrete transport for the C5 witness (distinct from the
counterexample's): the second URL faults. -/
def fetchWit : String → Option String := fun u =>
  if u = "w1" then some "pageW" else none

/-- C5 amended witness: two URLs with a fault on the second; the read stage
aborts. -/
theorem web_fault_amended_witness :
    readWebData (fun _ => some [])
      (extractWebData 2 fetchWit
        [("2025-05-16", "w1"), ("2025-06-20", "w2")]).1
      [("2025-05-16", "w1"), ("2025-06-20", "w2")] = .error () :=
  web_fault_amended.2 2 fetchWit
    [("2025-05-16", "w1"), ("2025-06-20", "w2")] "2025-06-20" "w2"
    (fun _ => some []) (by simp) (by simp) (by decide)

/- ## Claim C7: canonical-row invariants -/

/-- Helper: rows produced by `tagRows` carry the stamped type and date. -/
theorem mem_tagRows (r : CRow) (rs : List Row) (t : String) (d : ℕ)
    (h : r ∈ tagRows rs t d) : r.otype = t ∧ r.expiry = d := by
  obtain ⟨a, -, ha⟩ := List.mem_map.mp h
  rw [← ha]
  exact ⟨rfl, rfl⟩

/-- Helper: rows produced by `tagL` carry the stamped type and date. -/
theorem mem_tagL (r : LCRow) (ss : List String) (t : String) (d : ℕ)
    (h : r ∈ tagL ss t d) : r.otype = t ∧ r.expiry = d := by
  obtain ⟨a, -, ha⟩ := List.mem_map.mp h
  rw [← ha]
  exact ⟨rfl, rfl⟩

/-- Helper: a side that passes the validation gate starts with a numeric
strike. -/
theorem checkSide_valid : ∀ rs : List Row, checkSide rs = .valid →
    ∃ q rest, rs = ⟨some (.num q)⟩ :: rest := by
  intro rs h
  rcases rs with _ | ⟨⟨st⟩, rest⟩
  · simp [checkSide] at h
  · rcases st with _ | v
    · simp [checkSide] at h
    · rcases v with q | s
      · exact ⟨q, rest, rfl⟩
      · simp [checkSide, isNumericVal] at h

/-- Helper: a legacy table that passes the digit gate starts with a
digit-string strike. -/
theorem strikeDigitCheck_valid : ∀ t : LTable, strikeDigitCheck t = .valid →
    ∃ s rest, t = some (s :: rest) ∧ pyIsdigit s = true := by
  intro t h
  rcases t with _ | (_ | ⟨s, rest⟩)
  · simp [strikeDigitCheck] at h
  · simp [strikeDigitCheck] at h
  · by_cases hd : pyIsdigit s
    · exact ⟨s, rest, rfl, hd⟩
    · simp [strikeDigitCheck, hd] at h

/-- Helper: rows appended by the puts-only handler are put-typed and stamped
with the parsed date. -/
theorem apiOuter_mem (pE : String → Option ℕ) (e : String)
    (puts : Except Unit (List Row)) (dlen : ℕ) (r : CRow)
    (hr : r ∈ (apiOuter pE e puts dlen).1) :
    r.otype = "put" ∧ ∃ d, pE e = some d ∧ r.expiry = d := by
  unfold apiOuter at hr
  rcases puts with u | ps
  · cases hr
  · cases hps : checkSide ps <;> simp only [hps] at hr
    · by_cases h2 : 2 ≤ dlen
      · rw [if_pos h2] at hr
        cases hpe : pE e <;> simp only [hpe] at hr
        · cases hr
        · rename_i d
          exact ⟨(mem_tagRows r ps "put" d hr).1,
            d, rfl, (mem_tagRows r ps "put" d hr).2⟩
      · rw [if_neg h2] at hr
        cases hr
    · cases hr
    · cases hr

/-- Helper: rows appended by the calls-only handler are typed and stamped. -/
theorem apiCallsOnly_mem (pE : String → Option ℕ) (e : String)
    (cs : List Row) (puts : Except Unit (List Row)) (dlen : ℕ) (r : CRow)
    (hr : r ∈ (apiCallsOnly pE e cs puts dlen).1) :
    (r.otype = "call" ∨ r.otype = "put") ∧
      ∃ d, pE e = some d ∧ r.expiry = d := by
  unfold apiCallsOnly at hr
  cases hpe : pE e <;> simp only [hpe] at hr
  · have h := apiOuter_mem pE e puts dlen r hr
    obtain ⟨d, hd, -⟩ := h.2
    rw [hpe] at hd
    cases hd
  · rename_i d
    exact ⟨Or.inl (mem_tagRows r cs "call" d hr).1,
      d, rfl, (mem_tagRows r cs "call" d hr).2⟩

/-- Helper: restricting a stamped block to an option type keeps the whole
block when the type matches and nothing otherwise. -/
theorem filter_otype_tagRows (rs : List Row) (t t' : String) (d : ℕ) :
    (tagRows rs t d).filter (fun x => x.otype == t') =
      if t = t' then tagRows rs t d else [] := by
  by_cases ht : t = t'
  · rw [if_pos ht]
    apply List.filter_eq_self.mpr
    intro a ha
    have := (mem_tagRows a rs t d ha).1
    simp [this, ht]
  · rw [if_neg ht]
    apply List.filter_eq_nil_iff.mpr
    intro a ha
    have := (mem_tagRows a rs t d ha).1
    simp [this, ht]

/-- Helper: the legacy analogue of `filter_otype_tagRows`. -/
theorem filter_otype_tagL (ss : List String) (t t' : String) (d : ℕ) :
    (tagL ss t d).filter (fun x => x.otype == t') =
      if t = t' then tagL ss t d else [] := by
  by_cases ht : t = t'
  · rw [if_pos ht]
    apply List.filter_eq_self.mpr
    intro a ha
    have := (mem_tagL a ss t d ha).1
    simp [this, ht]
  · rw [if_neg ht]
    apply List.filter_eq_nil_iff.mpr
    intro a ha
    have := (mem_tagL a ss t d ha).1
    simp [this, ht]

/-- Helper: within the rows appended by the puts-only handler, the first row
of either side has a numeric strike. -/
theorem apiOuter_head (pE : String → Option ℕ) (e : String)
    (puts : Except Unit (List Row)) (dlen : ℕ) (t : String) (r : CRow)
    (h : (((apiOuter pE e puts dlen).1).filter
      (fun x => x.otype == t)).head? = some r) :
    ∃ q, r.strike = some (.num q) := by
  unfold apiOuter at h
  rcases puts with u | ps
  · simp at h
  · cases hps : checkSide ps <;> simp only [hps] at h
    · by_cases h2 : 2 ≤ dlen
      · rw [if_pos h2] at h
        cases hpe : pE e <;> simp only [hpe] at h
        · simp at h
        · obtain ⟨q, ps', hps'⟩ := checkSide_valid ps hps
          subst hps'
          rw [filter_otype_tagRows] at h
          by_cases ht : "put" = t
          · rw [if_pos ht] at h
            simp only [tagRows, List.map_cons, List.head?_cons,
              Option.some.injEq] at h
            rw [← h]
            exact ⟨q, rfl⟩
          · rw [if_neg ht] at h
            simp at h
      · rw [if_neg h2] at h
        simp at h
    · simp at h
    · simp at h

/-- Helper: within the rows appended by the calls-only handler, the first
row of either side has a numeric strike (the call side passed the gate). -/
theorem apiCallsOnly_head (pE : String → Option ℕ) (e : String)
    (cs : List Row) (puts : Except Unit (List Row)) (dlen : ℕ) (t : String)
    (r : CRow) (hc : checkSide cs = .valid)
    (h : (((apiCallsOnly pE e cs puts dlen).1).filter
      (fun x => x.otype == t)).head? = some r) :
    ∃ q, r.strike = some (.num q) := by
  unfold apiCallsOnly at h
  cases hpe : pE e <;> simp only [hpe] at h
  · exact apiOuter_head pE e puts dlen t r h
  · obtain ⟨q, cs', hcs'⟩ := checkSide_valid cs hc
    subst hcs'
    rw [filter_otype_tagRows] at h
    by_cases ht : "call" = t
    · rw [if_pos ht] at h
      simp only [tagRows, List.map_cons, List.head?_cons,
        Option.some.injEq] at h
      rw [← h]
      exact ⟨q, rfl⟩
    · rw [if_neg ht] at h
      simp at h

/-- Helper: rows appended by one legacy date iteration are typed and stamped
with the parsed date. -/
theorem legacyProcessDate_mem (pE : String → Option ℕ) (d : String)
    (ts : List LTable) (rows : List LCRow) (f : Bool)
    (h : legacyProcessDate pE d ts = .ok (rows, f)) :
    ∀ r ∈ rows, (r.otype = "call" ∨ r.otype = "put") ∧
      ∃ dd, pE d = some dd ∧ r.expiry = dd := by
  unfold legacyProcessDate at h
  rcases h0 : ts.get? 0 with _ | t0 <;> simp only [h0] at h
  · rcases h1 : ts.get? 1 with _ | t1 <;> simp only [h1] at h
    · injection h with h'
      injection h' with ha hb
      intro r hr
      rw [← ha] at hr
      cases hr
    · cases hc1 : strikeDigitCheck t1 <;> simp only [hc1] at h
      · cases hpe : pE d <;> simp only [hpe] at h
        · simp at h
        · rename_i dd
          injection h with h'
          injection h' with ha hb
          intro r hr
          rw [← ha] at hr
          have hm := mem_tagL r _ "put" dd hr
          exact ⟨Or.inr hm.1, dd, rfl, hm.2⟩
      · injection h with h'
        injection h' with ha hb
        intro r hr
        rw [← ha] at hr
        cases hr
      · simp at h
  · cases hc0 : strikeDigitCheck t0 <;> simp only [hc0] at h
    · rcases h1 : ts.get? 1 with _ | t1 <;> simp only [h1] at h
      · cases hpe : pE d <;> simp only [hpe] at h
        · simp at h
        · rename_i dd
          injection h with h'
          injection h' with ha hb
          intro r hr
          rw [← ha] at hr
          have hm := mem_tagL r _ "call" dd hr
          exact ⟨Or.inl hm.1, dd, rfl, hm.2⟩
      · cases hc1 : strikeDigitCheck t1 <;> simp only [hc1] at h
        · cases hpe : pE d <;> simp only [hpe] at h
          · simp at h
          · rename_i dd
            injection h with h'
            injection h' with ha hb
            intro r hr
            rw [← ha] at hr
            rcases List.mem_append.mp hr with hr1 | hr2
            · have hm := mem_tagL r _ "call" dd hr1
              exact ⟨Or.inl hm.1, dd, rfl, hm.2⟩
            · have hm := mem_tagL r _ "put" dd hr2
              exact ⟨Or.inr hm.1, dd, rfl, hm.2⟩
        · injection h with h'
          injection h' with ha hb
          intro r hr
          rw [← ha] at hr
          cases hr
        · simp at h
    · injection h with h'
      injection h' with ha hb
      intro r hr
      rw [← ha] at hr
      cases hr
    · simp at h

/-- Helper: within the rows appended by a legacy date iteration, the first
row of either side has a digit-string strike. -/
theorem legacyProcessDate_head (pE : String → Option ℕ) (d : String)
    (ts : List LTable) (rows : List LCRow) (f : Bool) (t : String)
    (r : LCRow) (h : legacyProcessDate pE d ts = .ok (rows, f))
    (hh : (rows.filter (fun x => x.otype == t)).head? = some r) :
    pyIsdigit r.strike = true := by
  unfold legacyProcessDate at h
  rcases h0 : ts.get? 0 with _ | t0 <;> simp only [h0] at h
  · rcases h1 : ts.get? 1 with _ | t1 <;> simp only [h1] at h
    · injection h with h'
      injection h' with ha hb
      rw [← ha] at hh
      simp at hh
    · cases hc1 : strikeDigitCheck t1 <;> simp only [hc1] at h
      · cases hpe : pE d <;> simp only [hpe] at h
        · simp at h
        · obtain ⟨s, l, hts, hdig⟩ := strikeDigitCheck_valid t1 hc1
          subst hts
          injection h with h'
          injection h' with ha hb
          rw [← ha] at hh
          simp only [Option.getD_some] at hh
          rw [filter_otype_tagL] at hh
          by_cases ht : "put" = t
          · rw [if_pos ht] at hh
            simp only [tagL, List.map_cons, List.head?_cons,
              Option.some.injEq] at hh
            rw [← hh]
            exact hdig
          · rw [if_neg ht] at hh
            simp at hh
      · injection h with h'
        injection h' with ha hb
        rw [← ha] at hh
        simp at hh
      · simp at h
  · cases hc0 : strikeDigitCheck t0 <;> simp only [hc0] at h
    · rcases h1 : ts.get? 1 with _ | t1 <;> simp only [h1] at h
      · cases hpe : pE d <;> simp only [hpe] at h
        · simp at h
        · obtain ⟨s, l, hts, hdig⟩ := strikeDigitCheck_valid t0 hc0
          subst hts
          injection h with h'
          injection h' with ha hb
          rw [← ha] at hh
          simp only [Option.getD_some] at hh
          rw [filter_otype_tagL] at hh
          by_cases ht : "call" = t
          · rw [if_pos ht] at hh
            simp only [tagL, List.map_cons, List.head?_cons,
              Option.some.injEq] at hh
            rw [← hh]
            exact hdig
          · rw [if_neg ht] at hh
            simp at hh
      · cases hc1 : strikeDigitCheck t1 <;> simp only [hc1] at h
        · cases hpe : pE d <;> simp only [hpe] at h
          · simp at h
          · obtain ⟨s0, l0, hts0, hdig0⟩ := strikeDigitCheck_valid t0 hc0
            obtain ⟨s1, l1, hts1, hdig1⟩ := strikeDigitCheck_valid t1 hc1
            subst hts0
            subst hts1
            injection h with h'
            injection h' with ha hb
            rw [← ha] at hh
            simp only [Option.getD_some] at hh
            rw [List.filter_append, filter_otype_tagL,
              filter_otype_tagL] at hh
            by_cases ht0 : "call" = t
            · rw [if_pos ht0] at hh
              simp only [tagL, List.map_cons, List.cons_append,
                List.head?_cons, Option.some.injEq] at hh
              rw [← hh]
              exact hdig0
            · rw [if_neg ht0] at hh
              by_cases ht1 : "put" = t
              · rw [if_pos ht1] at hh
                simp only [tagL, List.map_cons, List.nil_append,
                  List.head?_cons, Option.some.injEq] at hh
                rw [← hh]
                exact hdig1
              · rw [if_neg ht1] at hh
                simp at hh
        · injection h with h'
          injection h' with ha hb
          rw [← ha] at hh
          simp at hh
        · simp at h
    · injection h with h'
      injection h' with ha hb
      rw [← ha] at hh
      simp at hh
    · simp at h

/-- C7 amended: in both fetchers, every row appended to the canonical table
has `Option Type` exactly `call` or `put` and an `Expiry` stamped from a
successful date parse; the numeric-strike (resp. digit-string) guarantee
holds for the FIRST appended row of EACH side of an expiry's block — the
first row whose Option Type is `call` and the first whose Option Type is
`put` — while later rows of a side are appended without any per-row strike
check (see the counterexample). -/
theorem row_invariants_amended :
    (∀ (pE : String → Option ℕ) (e : String)
      (calls puts : Except Unit (List Row)) (r : CRow),
      r ∈ (apiProcessExpiry pE e calls puts).1 →
      (r.otype = "call" ∨ r.otype = "put") ∧
        ∃ d, pE e = some d ∧ r.expiry = d) ∧
    (∀ (pE : String → Option ℕ) (e : String)
      (calls puts : Except Unit (List Row)) (t : String) (r : CRow),
      (((apiProcessExpiry pE e calls puts).1).filter
        (fun x => x.otype == t)).head? = some r →
      ∃ q, r.strike = some (.num q)) ∧
    (∀ (pE : String → Option ℕ) (d : String) (ts : List LTable)
      (rows : List LCRow) (f : Bool),
      legacyProcessDate pE d ts = .ok (rows, f) →
      ∀ r ∈ rows, (r.otype = "call" ∨ r.otype = "put") ∧
        ∃ dd, pE d = some dd ∧ r.expiry = dd) ∧
    (∀ (pE : String → Option ℕ) (d : String) (ts : List LTable)
      (rows : List LCRow) (f : Bool) (t : String) (r : LCRow),
      legacyProcessDate pE d ts = .ok (rows, f) →
      (rows.filter (fun x => x.otype == t)).head? = some r →
      pyIsdigit r.strike = true) := by
  refine ⟨?_, ?_, legacyProcessDate_mem, legacyProcessDate_head⟩
  · intro pE e calls puts r hr
    unfold apiProcessExpiry at hr
    rcases calls with u | cs
    · have h := apiOuter_mem pE e puts 0 r hr
      exact ⟨Or.inr h.1, h.2⟩
    · cases hcs : checkSide cs <;> simp only [hcs] at hr
      · rcases puts with v | ps
        · exact apiCallsOnly_mem pE e cs (.error v) 1 r hr
        · cases hps : checkSide ps <;> simp only [hps] at hr
          · cases hpe : pE e <;> simp only [hpe] at hr
            · have h := apiOuter_mem pE e (.ok ps) 2 r hr
              obtain ⟨dd, hdd, -⟩ := h.2
              rw [hpe] at hdd
              cases hdd
            · rename_i dd
              rcases List.mem_append.mp hr with hr1 | hr2
              · have hm := mem_tagRows r cs "call" dd hr1
                exact ⟨Or.inl hm.1, dd, rfl, hm.2⟩
              · have hm := mem_tagRows r ps "put" dd hr2
                exact ⟨Or.inr hm.1, dd, rfl, hm.2⟩
          · cases hr
          · exact apiCallsOnly_mem pE e cs (.ok ps) 1 r hr
      · cases hr
      · have h := apiOuter_mem pE e puts 0 r hr
        exact ⟨Or.inr h.1, h.2⟩
  · intro pE e calls puts t r hr
    unfold apiProcessExpiry at hr
    rcases calls with u | cs
    · exact apiOuter_head pE e puts 0 t r hr
    · cases hcs : checkSide cs <;> simp only [hcs] at hr
      · rcases puts with v | ps
        · exact apiCallsOnly_head pE e cs (.error v) 1 t r hcs hr
        · cases hps : checkSide ps <;> simp only [hps] at hr
          · cases hpe : pE e <;> simp only [hpe] at hr
            · exact apiOuter_head pE e (.ok ps) 2 t r hr
            · obtain ⟨qc, cs', hcs'⟩ := checkSide_valid cs hcs
              obtain ⟨qp, ps', hps'⟩ := checkSide_valid ps hps
              subst hcs'
              subst hps'
              rw [List.filter_append, filter_otype_tagRows,
                filter_otype_tagRows] at hr
              by_cases ht0 : "call" = t
              · rw [if_pos ht0] at hr
                simp only [tagRows, List.map_cons, List.cons_append,
                  List.head?_cons, Option.some.injEq] at hr
                rw [← hr]
                exact ⟨qc, rfl⟩
              · rw [if_neg ht0] at hr
                by_cases ht1 : "put" = t
                · rw [if_pos ht1] at hr
                  simp only [tagRows, List.map_cons, List.nil_append,
                    List.head?_cons, Option.some.injEq] at hr
                  rw [← hr]
                  exact ⟨qp, rfl⟩
                · rw [if_neg ht1] at hr
                  simp at hr
          · simp at hr
          · exact apiCallsOnly_head pE e cs (.ok ps) 1 t r hcs hr
      · simp at hr
      · exact apiOuter_head pE e puts 0 t r hr

/-- C7 counterexample: a call side whose first strike is numeric but whose
second row carries a non-numeric placeholder strike passes the gate whole,
and the non-numeric row is appended to the canonical table. -/
theorem row_strike_counterexample :
    (⟨some (.str "N/A"), "call", 20250321⟩ : CRow) ∈
      (apiProcessExpiry pEx "2025-03-21"
        (.ok [⟨some (.num 5700)⟩, ⟨some (.str "N/A")⟩]) (.error ())).1 ∧
    isNumericVal (.str "N/A") = false := by
  exact ⟨by decide, rfl⟩

/-- C7 amended witness: a concrete appended row is typed and stamped, and
the put-side head of a combined calls+puts block is numeric (digit-string in
the legacy fetcher). -/
theorem row_invariants_amended_witness :
    (((⟨some (.num 5700), "call", 20250321⟩ : CRow).otype = "call" ∨
      (⟨some (.num 5700), "call", 20250321⟩ : CRow).otype = "put") ∧
      ∃ d, pEx "2025-03-21" = some d ∧
        (⟨some (.num 5700), "call", 20250321⟩ : CRow).expiry = d) ∧
    (∃ q, (⟨some (.num 5600), "put", 20250321⟩ : CRow).strike =
      some (.num q)) ∧
    (((⟨"5700", "call", 20250418⟩ : LCRow).otype = "call" ∨
      (⟨"5700", "call", 20250418⟩ : LCRow).otype = "put") ∧
      ∃ dd, pEx "2025-04-18" = some dd ∧
        (⟨"5700", "call", 20250418⟩ : LCRow).expiry = dd) ∧
    pyIsdigit (⟨"4300", "put", 20250418⟩ : LCRow).strike = true :=
  ⟨row_invariants_amended.1 pEx "2025-03-21"
      (.ok [⟨some (.num 5700)⟩]) (.error ())
      ⟨some (.num 5700), "call", 20250321⟩ (by decide),
    row_invariants_amended.2.1 pEx "2025-03-21"
      (.ok [⟨some (.num 5700)⟩]) (.ok [⟨some (.num 5600)⟩]) "put"
      ⟨some (.num 5600), "put", 20250321⟩ (by decide),
    row_invariants_amended.2.2.1 pEx "2025-04-18" [some ["5700"]]
      [⟨"5700", "call", 20250418⟩] false (by rfl)
      ⟨"5700", "call", 20250418⟩ (by decide),
    row_invariants_amended.2.2.2 pEx "2025-04-18"
      [some ["5700"], some ["4300"]]
      [⟨"5700", "call", 20250418⟩, ⟨"4300", "put", 20250418⟩] false "put"
      ⟨"4300", "put", 20250418⟩ (by rfl) (by decide)⟩

/- ## Claim C8: precomputed data adapter -/

/-- C8: with precomputed data present the adapter path is taken: every row's
`Discount Rate` is the variant selected by the discount-type flag (`smooth`
column iff the flag equals `"smooth"`), the resolved spot is the first row's
`Spot Price`, and the fetch path is selected exactly when no precomputed data
is supplied. -/
theorem precomputed_adapter_correct (dt : String) (h0 : PreRow)
    (rest : List PreRow) :
    volatilityInit (some (h0 :: rest)) dt =
      .ok (.precomputed h0.spotPrice
        ((h0 :: rest).map (fun r => ⟨r, selectDiscountRate dt r⟩))) ∧
    (∀ c ∈ (h0 :: rest).map
        (fun r => (⟨r, selectDiscountRate dt r⟩ : CPreRow)),
      c.discountRate = if dt = "smooth" then c.src.smoothDiscountRate
        else c.src.directDiscountRate) ∧
    (∀ pre : Option (List PreRow),
      volatilityInit pre dt = .ok .fetchPath ↔ pre = none) := by
  refine ⟨rfl, ?_, ?_⟩
  · intro c hc
    obtain ⟨r, -, hr⟩ := List.mem_map.mp hc
    rw [← hr]
    simp [selectDiscountRate]
  · intro pre
    rcases pre with _ | df
    · simp [volatilityInit]
    · rcases df with _ | ⟨h, t⟩ <;> simp [volatilityInit]

/-- A concrete precomputed row for the C8 witness. -/
def preRow0 : PreRow := ⟨5800, 1/100, 2/100⟩

/-- C8 witness: with the `smooth` flag a concrete row's Discount Rate is the
smooth variant. -/
theorem precomputed_adapter_correct_witness :
    (⟨preRow0, selectDiscountRate "smooth" preRow0⟩ : CPreRow).discountRate =
      if "smooth" = "smooth" then preRow0.smoothDiscountRate
      else preRow0.directDiscountRate :=
  (precomputed_adapter_correct "smooth" preRow0 []).2.1
    ⟨preRow0, selectDiscountRate "smooth" preRow0⟩ (by simp)

/- ## Claim C9: trading calendar assembly -/

/-- Helper: the index filter leaves every rule from index 8 onward intact. -/
theorem filterIdxNe67_high : ∀ (l : List (List ℕ)) (i : ℕ), 8 ≤ i →
    filterIdxNe67 i l = l := by
  intro l
  induction l with
  | nil => intro i _; rfl
  | cons x xs ih =>
    intro i hi
    unfold filterIdxNe67
    rw [if_neg (by omega : ¬(i = 6 ∨ i = 7)), ih (i + 1) (by omega)]

/-- C9: the trading calendar consists of exactly the dates generated by the
federal rules minus the two excluded ones (indices 6 and 7) together with the
GoodFriday rule, sorted; a date produced only by an excluded rule never
appears. -/
theorem trading_calendar_correct (f0 f1 f2 f3 f4 f5 f6 f7 : List ℕ)
    (rest : List (List ℕ)) (goodFriday : List ℕ) (federal : List (List ℕ))
    (hf : federal = f0 :: f1 :: f2 :: f3 :: f4 :: f5 :: f6 :: f7 :: rest) :
    keptFederalRules federal =
      f0 :: f1 :: f2 :: f3 :: f4 :: f5 :: rest ∧
    (keptFederalRules federal).length = federal.length - 2 ∧
    (∀ x, x ∈ tradingCalendar federal goodFriday ↔
      ((∃ l ∈ keptFederalRules federal, x ∈ l) ∨ x ∈ goodFriday)) ∧
    List.Sorted (· ≤ ·) (tradingCalendar federal goodFriday) ∧
    (∀ x, (x ∈ f6 ∨ x ∈ f7) →
      (∀ l ∈ keptFederalRules federal, x ∉ l) → x ∉ goodFriday →
      x ∉ tradingCalendar federal goodFriday) := by
  subst hf
  have hkept : keptFederalRules
      (f0 :: f1 :: f2 :: f3 :: f4 :: f5 :: f6 :: f7 :: rest) =
      f0 :: f1 :: f2 :: f3 :: f4 :: f5 :: rest := by
    unfold keptFederalRules
    simp [filterIdxNe67, filterIdxNe67_high rest 8 (by omega)]
  have hmem : ∀ x, x ∈ tradingCalendar
      (f0 :: f1 :: f2 :: f3 :: f4 :: f5 :: f6 :: f7 :: rest) goodFriday ↔
      ((∃ l ∈ keptFederalRules
          (f0 :: f1 :: f2 :: f3 :: f4 :: f5 :: f6 :: f7 :: rest),
        x ∈ l) ∨ x ∈ goodFriday) := by
    intro x
    unfold tradingCalendar
    rw [(List.mergeSort_perm _ _).mem_iff, List.mem_append, List.mem_flatten]
  refine ⟨hkept, ?_, hmem, ?_, ?_⟩
  · rw [hkept]
    simp only [List.length_cons]
    omega
  · unfold tradingCalendar
    exact List.sorted_mergeSort' _
  · intro x hx hnot hgf hmemx
    rcases (hmem x).mp hmemx with ⟨l, hl, hxl⟩ | hg
    · exact hnot l hl hxl
    · exact hgf hg

/-- C9 witness: eight singleton rules plus a GoodFriday rule; the kept rules
are the first six. -/
theorem trading_calendar_correct_witness :
    keptFederalRules [[10], [20], [30], [40], [50], [60], [70], [80]] =
      [[10], [20], [30], [40], [50], [60]] :=
  (trading_calendar_correct [10] [20] [30] [40] [50] [60] [70] [80] [] [15]
    [[10], [20], [30], [40], [50], [60], [70], [80]] rfl).1

/- ## Claim C10: positional zipping in URL discovery -/

/-- Helper: the keys of a zip form a sublist of the first list. -/
theorem zip_map_fst_sublist {α β : Type} :
    ∀ (l1 : List α) (l2 : List β),
      ((l1.zip l2).map Prod.fst).Sublist l1 := by
  intro l1
  induction l1 with
  | nil => intro l2; simp
  | cons x xs ih =>
    intro l2
    rcases l2 with _ | ⟨y, ys⟩
    · simp
    · simpa using (ih ys).cons₂ x

/-- Helper: folding `dictUpdate` over pairs with globally fresh keys just
appends them. -/
theorem dictOfPairs_append (l : List (String × String)) :
    ∀ acc : List (String × String),
      ((acc.map Prod.fst) ++ (l.map Prod.fst)).Nodup →
      l.foldl (fun d p => dictUpdate d p.1 p.2) acc = acc ++ l := by
  induction l with
  | nil => intro acc _; simp
  | cons p ps ih =>
    intro acc h
    obtain ⟨k, v⟩ := p
    simp only [List.foldl_cons]
    have hdisj : (acc.map Prod.fst).Disjoint
        (k :: ps.map Prod.fst) := by
      have := List.nodup_append.mp (by simpa using h)
      exact this.2.2
    have hk : acc.any (fun q => q.1 == k) = false := by
      rw [List.any_eq_false]
      intro q hq hbeq
      have hkeq : q.1 = k := by simpa using hbeq
      exact hdisj (List.mem_map.mpr ⟨q, hq, rfl⟩)
        (hkeq ▸ List.mem_cons_self _ _)
    have hupd : dictUpdate acc k v = acc ++ [(k, v)] := by
      unfold dictUpdate
      simp [hk]
    rw [hupd, ih (acc ++ [(k, v)]) (by simpa [List.append_assoc] using h),
      List.append_assoc]
    rfl

/-- Helper: `dict(pairs)` is the identity when the keys are distinct. -/
theorem dictOfPairs_eq_self (l : List (String × String))
    (h : (l.map Prod.fst).Nodup) : dictOfPairs l = l := by
  have := dictOfPairs_append l [] (by simpa using h)
  simpa [dictOfPairs] using this

/-- Helper: a filterMap whose function always succeeds is a map. -/
theorem filterMap_eq_map_getD {α β : Type} (f : α → Option β) (b : β) :
    ∀ l : List α, (∀ x ∈ l, (f x).isSome) →
      l.filterMap f = l.map (fun x => (f x).getD b) := by
  intro l
  induction l with
  | nil => intro _; rfl
  | cons x xs ih =>
    intro h
    rcases hf : f x with _ | y
    · have := h x (List.mem_cons_self _ _)
      rw [hf] at this
      cases this
    · rw [List.filterMap_cons, hf, List.map_cons, hf,
        ih (fun z hz => h z (List.mem_cons.mpr (Or.inr hz)))]
      rfl

/-- Date-picker entries whose display texts parse to the SAME date. -/
def entriesDup : List PageEntry :=
  [⟨"Jan 3, 2025", "1111111111"⟩, ⟨"2025-01-03", "2222222222"⟩]

/-- A free-form date parser sending both display texts to one date code. -/
def parseDup : String → Option ℕ := fun s =>
  if s = "Jan 3, 2025" ∨ s = "2025-01-03" then some 3 else none

/-- C10 counterexample: two entries with valid 10-digit tokens whose dates
parse to the same calendar date collapse in `dict(zip(...))` — the map has 1
entry, not min(2, 2) = 2 (the later token overwrites the earlier). -/
theorem urlmap_size_counterexample :
    (extracturls parseDup (fun n => toString n) entriesDup).length = 1 ∧
    min (entriesDup.filterMap (fun e => parseDup e.text)).length
      ((entriesDup.map PageEntry.token).filter validToken).length = 2 ∧
    (1 : ℕ) ≠ 2 :=
  ⟨rfl, rfl, by omega⟩

/-- C10 amended: the map is built by positionally zipping the two
independently filtered lists, so the i-th surviving date is paired with the
i-th surviving token; it has exactly min(#parsed dates, #valid tokens)
entries PROVIDED the formatted parsed dates are pairwise distinct (duplicate
dates collapse, last token wins); and each date is associated with its own
entry's token whenever every entry's date parses, every token is valid and
the dates are distinct (alignment is sufficient, not necessary — an entry
failing both filters also leaves the remaining pairs aligned). -/
theorem urlmap_amended :
    (∀ (parseD : String → Option ℕ) (fmt : ℕ → String)
      (entries : List PageEntry),
      ((entries.filterMap (fun e => parseD e.text)).map fmt).Nodup →
      extracturls parseD fmt entries =
        ((entries.filterMap (fun e => parseD e.text)).map fmt).zip
          ((entries.map PageEntry.token).filter validToken) ∧
      (extracturls parseD fmt entries).length =
        min ((entries.filterMap (fun e => parseD e.text)).map fmt).length
          ((entries.map PageEntry.token).filter validToken).length) ∧
    (∀ (parseD : String → Option ℕ) (fmt : ℕ → String)
      (entries : List PageEntry),
      (∀ e ∈ entries, (parseD e.text).isSome) →
      (∀ e ∈ entries, validToken e.token = true) →
      ((entries.filterMap (fun e => parseD e.text)).map fmt).Nodup →
      extracturls parseD fmt entries =
        entries.map (fun e => (fmt ((parseD e.text).getD 0), e.token))) := by
  constructor
  · intro parseD fmt entries hnd
    have hfst : ((((entries.filterMap (fun e => parseD e.text)).map
        fmt).zip ((entries.map PageEntry.token).filter validToken)).map
          Prod.fst).Nodup :=
      (zip_map_fst_sublist _ _).nodup hnd
    have heq : extracturls parseD fmt entries =
        ((entries.filterMap (fun e => parseD e.text)).map fmt).zip
          ((entries.map PageEntry.token).filter validToken) :=
      dictOfPairs_eq_self _ hfst
    refine ⟨heq, ?_⟩
    rw [heq]
    exact List.length_zip _ _
  · intro parseD fmt entries h1 h2 hnd
    have hA : entries.filterMap (fun e => parseD e.text) =
        entries.map (fun e => (parseD e.text).getD 0) :=
      filterMap_eq_map_getD _ 0 entries h1
    have hB : (entries.map PageEntry.token).filter validToken =
        entries.map PageEntry.token := by
      rw [List.filter_eq_self]
      intro a ha
      obtain ⟨e, he, rfl⟩ := List.mem_map.mp ha
      exact h2 e he
    have hzip : ((entries.filterMap (fun e => parseD e.text)).map fmt).zip
        ((entries.map PageEntry.token).filter validToken) =
        entries.map (fun e => (fmt ((parseD e.text).getD 0), e.token)) := by
      rw [hA, hB, List.map_map, List.zip_map']
      rfl
    have hfst : ((entries.map
        (fun e => (fmt ((parseD e.text).getD 0), e.token))).map
          Prod.fst).Nodup := by
      rw [List.map_map]
      rw [hA, List.map_map] at hnd
      exact hnd
    show dictOfPairs _ = _
    rw [hzip]
    exact dictOfPairs_eq_self _ hfst

/-- Entries for the C10 witness: all dates parse, all tokens valid,
dates distinct. -/
def entriesOk : List PageEntry :=
  [⟨"Mar 21, 2025", "1742515200"⟩, ⟨"Apr 18, 2025", "1744934400"⟩]

/-- A free-form date parser for the C10 witness. -/
def parseOk : String → Option ℕ := fun s =>
  if s = "Mar 21, 2025" then some 20250321
  else if s = "Apr 18, 2025" then some 20250418
  else none

/-- C10 amended witness: with all entries surviving both filters and
distinct dates, each date maps to its own entry's token. -/
theorem urlmap_amended_witness :
    (extracturls parseOk (fun n => toString n) entriesOk).length =
      min ((entriesOk.filterMap
          (fun e => parseOk e.text)).map (fun n => toString n)).length
        ((entriesOk.map PageEntry.token).filter validToken).length ∧
    extracturls parseOk (fun n => toString n) entriesOk =
      entriesOk.map
        (fun e => (toString ((parseOk e.text).getD 0), e.token)) :=
  ⟨(urlmap_amended.1 parseOk (fun n => toString n) entriesOk
      (by decide)).2,
    urlmap_amended.2 parseOk (fun n => toString n) entriesOk
      (by decide) (by decide) (by decide)⟩
